import Mathlib

/-!
Shallow embedding of the earnings-aggregation and goal-projection engine of
the barber dashboard (`src/unnamed/part_001`).

Modelling conventions:
* A JS `Date` holds an absolute instant; all reads in the program use the
  local clock, so we model a `Date` as an integer count of milliseconds on
  the local clock since the local epoch 1970-01-01T00:00 (a fixed UTC
  offset; daylight-saving shifts are outside the model).
* Monetary amounts are exact rationals.  The program's arithmetic on them
  (sums, differences, division by constants, `Math.min/max/ceil/floor`) is
  modelled exactly; IEEE-754 rounding is abstracted away, but the special
  values `NaN`/`±Infinity` produced by division by zero are modelled
  faithfully where the goal-progress computation can reach them.
* `Date.prototype.toISOString` produces strings whose lexicographic order
  coincides with the order of the instants they denote, so timestamp
  strings are modelled by the instants themselves (integers).
-/

/-- Milliseconds in one day. -/
def msPerDay : ℤ := 86400000

/-- A JS `Date`, read on the local clock: milliseconds since the local epoch. -/
abbrev JSDate := ℤ

/-- Local calendar-day number: days since 1970-01-01 (local).  Integer `/`
on `ℤ` is floor division for a positive divisor, matching the clock. -/
def dayNumber (t : JSDate) : ℤ := t / msPerDay

/-- Milliseconds elapsed since the preceding local midnight. -/
def timeOfDay (t : JSDate) : ℤ := t % msPerDay

/-- JS `d.setHours(0,0,0,0)`: truncate to the preceding local midnight. -/
def setHoursZero (t : JSDate) : JSDate := dayNumber t * msPerDay

/-- JS `d.getDay()`: weekday, `0` = Sunday … `6` = Saturday.
1970-01-01 was a Thursday (`4`). -/
def getDay (t : JSDate) : ℤ := (dayNumber t + 4) % 7

/-! ### Proleptic Gregorian calendar (the calendar JS `Date` exposes) -/

/-- Gregorian leap-year test. -/
def isLeap (y : ℤ) : Bool := y % 4 == 0 && (y % 100 != 0 || y % 400 == 0)

/-- Number of days in year `y`. -/
def daysInYearN (y : ℤ) : ℕ := if isLeap y then 366 else 365

/-- Lengths of the twelve months of year `y` (index `0` = January). -/
def monthLengthsN (y : ℤ) : List ℕ :=
  [31, if isLeap y then 29 else 28, 31, 30, 31, 30, 31, 31, 30, 31, 30, 31]

/-- Days from 1970-01-01 to January 1 of year `y` (negative for earlier
years).  `477` is the number of leap years in `[0, 1970)`. -/
def daysBeforeYear (y : ℤ) : ℤ :=
  365 * (y - 1970) + ((y - 1) / 4 - (y - 1) / 100 + (y - 1) / 400) - 477

lemma daysInYearN_pos (y : ℤ) : 0 < daysInYearN y := by
  unfold daysInYearN; split <;> omega

lemma daysInYearN_ge (y : ℤ) : 365 ≤ daysInYearN y := by
  unfold daysInYearN; split <;> omega

lemma isLeap_iff (y : ℤ) :
    isLeap y = true ↔ y % 4 = 0 ∧ (¬y % 100 = 0 ∨ y % 400 = 0) := by
  unfold isLeap
  simp only [Bool.and_eq_true, Bool.or_eq_true, beq_iff_eq, bne_iff_ne]

lemma daysBeforeYear_succ (y : ℤ) :
    daysBeforeYear (y + 1) = daysBeforeYear y + daysInYearN y := by
  unfold daysBeforeYear daysInYearN
  have e1 : y + 1 - 1 = y := by ring
  rw [e1]
  by_cases hl : isLeap y = true
  · rw [if_pos hl]
    have h' := (isLeap_iff y).mp hl
    have h4 := h'.1
    rcases h'.2 with h100 | h400
    · push_cast; omega
    · push_cast; omega
  · rw [if_neg hl]
    have h' : ¬(y % 4 = 0 ∧ (¬y % 100 = 0 ∨ y % 400 = 0)) := fun hc =>
      hl ((isLeap_iff y).mpr hc)
    push_cast
    by_cases h4 : y % 4 = 0
    · have h100 : y % 100 = 0 := by tauto
      have h400 : ¬y % 400 = 0 := by tauto
      omega
    · omega

lemma daysBeforeYear_base : daysBeforeYear 1970 = 0 := by
  unfold daysBeforeYear; norm_num

lemma daysBeforeYear_le (y z : ℤ) (h : y < z) :
    daysBeforeYear y + daysInYearN y ≤ daysBeforeYear z := by
  have H : ∀ n : ℤ, y + 1 ≤ n → daysBeforeYear y + daysInYearN y ≤ daysBeforeYear n := by
    refine Int.le_induction ?_ ?_
    · exact le_of_eq (daysBeforeYear_succ y).symm
    · intro n _ ih
      have := daysBeforeYear_succ n
      have := daysInYearN_pos n
      omega
  exact H z h

lemma daysBeforeYear_nonneg (y : ℤ) (h : 1970 ≤ y) : 0 ≤ daysBeforeYear y := by
  rcases eq_or_lt_of_le h with h' | h'
  · rw [← h', daysBeforeYear_base]
  · have := daysBeforeYear_le 1970 y h'
    rw [daysBeforeYear_base] at this
    have := daysInYearN_pos 1970
    omega

/-- Split a day count `n ≥ 0` (days since Jan 1 of year `y`) into the year
it falls in and the zero-based day-of-year. -/
def yearSplit (y : ℤ) (n : ℕ) : ℤ × ℕ :=
  if _h : n < daysInYearN y then (y, n)
  else yearSplit (y + 1) (n - daysInYearN y)
termination_by n
decreasing_by
  have := daysInYearN_pos y
  omega

/-- Split a day count `n ≥ 1` of days lying before Jan 1 of year `y` into
the year it falls in and the zero-based day-of-year. -/
def yearSplitNeg (y : ℤ) (n : ℕ) : ℤ × ℕ :=
  if _h : n ≤ daysInYearN (y - 1) then (y - 1, daysInYearN (y - 1) - n)
  else yearSplitNeg (y - 1) (n - daysInYearN (y - 1))
termination_by n
decreasing_by
  have := daysInYearN_pos (y - 1)
  omega

lemma yearSplit_spec (n : ℕ) (y₀ : ℤ) :
    y₀ ≤ (yearSplit y₀ n).1 ∧ (yearSplit y₀ n).2 < daysInYearN (yearSplit y₀ n).1 ∧
      (n : ℤ) = daysBeforeYear (yearSplit y₀ n).1 - daysBeforeYear y₀ + (yearSplit y₀ n).2 := by
  induction n using Nat.strong_induction_on generalizing y₀ with
  | _ n ih =>
    rw [yearSplit]
    split
    · refine ⟨le_refl _, by simpa, by simp⟩
    · rename_i h
      have hpos := daysInYearN_pos y₀
      have hrec := ih (n - daysInYearN y₀) (by omega) (y₀ + 1)
      have hstep := daysBeforeYear_succ y₀
      refine ⟨by omega, hrec.2.1, ?_⟩
      have := hrec.2.2
      push_cast at this ⊢
      omega

lemma yearSplit_inv (n : ℕ) (y₀ y : ℤ) (doy : ℕ) (hy : y₀ ≤ y)
    (hdoy : doy < daysInYearN y)
    (hn : (n : ℤ) = daysBeforeYear y - daysBeforeYear y₀ + doy) :
    yearSplit y₀ n = (y, doy) := by
  induction n using Nat.strong_induction_on generalizing y₀ with
  | _ n ih =>
    rw [yearSplit]
    split
    · rename_i h
      have : y = y₀ := by
        by_contra hne
        have hlt : y₀ < y := lt_of_le_of_ne hy (Ne.symm hne)
        have := daysBeforeYear_le y₀ y hlt
        omega
      subst this
      have : (doy : ℤ) = n := by omega
      have : doy = n := by omega
      simp [this]
    · rename_i h
      have hpos := daysInYearN_pos y₀
      have hstep := daysBeforeYear_succ y₀
      have hne : y ≠ y₀ := by
        by_contra he
        subst he
        omega
      have hy1 : y₀ + 1 ≤ y := by
        rcases lt_or_eq_of_le hy with h' | h'
        · omega
        · exact absurd h'.symm hne
      have hge : daysInYearN y₀ ≤ n := by omega
      exact ih (n - daysInYearN y₀) (by omega) (y₀ + 1) hy1 (by omega)

/-- Split a zero-based day-of-year into (zero-based month, one-based day),
given the list of month lengths. -/
def monthSplit : List ℕ → ℕ → ℕ × ℕ
  | [], d => (0, d + 1)
  | len :: rest, d =>
      if d < len then (0, d + 1)
      else ((monthSplit rest (d - len)).1 + 1, (monthSplit rest (d - len)).2)

lemma monthSplit_spec : ∀ (ls : List ℕ) (d : ℕ), d < ls.sum →
    (monthSplit ls d).1 < ls.length ∧ 1 ≤ (monthSplit ls d).2 ∧
      (monthSplit ls d).2 ≤ ls.getD (monthSplit ls d).1 0 ∧
      d + 1 = (ls.take (monthSplit ls d).1).sum + (monthSplit ls d).2
  | [], d => by simp
  | len :: rest, d => by
    intro hd
    rw [monthSplit]
    split
    · rename_i h
      refine ⟨by simp, by simp, by simpa using h, by simp⟩
    · rename_i h
      have hsum : d - len < rest.sum := by
        simp only [List.sum_cons] at hd; omega
      have ih := monthSplit_spec rest (d - len) hsum
      refine ⟨by simpa using ih.1, ih.2.1, by simpa using ih.2.2.1, ?_⟩
      have h4 := ih.2.2.2
      simp only [List.take_succ_cons, List.sum_cons]
      omega

lemma monthSplit_inv : ∀ (ls : List ℕ) (m dd : ℕ), m < ls.length → 1 ≤ dd →
    dd ≤ ls.getD m 0 → monthSplit ls ((ls.take m).sum + dd - 1) = (m, dd)
  | [], m, dd => by simp
  | len :: rest, 0, dd => by
    intro _ h1 h2
    simp only [List.getD_cons_zero] at h2
    rw [monthSplit]
    rw [if_pos (by simp; omega)]
    simp
    omega
  | len :: rest, m + 1, dd => by
    intro hm h1 h2
    simp only [List.length_cons, Nat.add_lt_add_iff_right] at hm
    simp only [List.getD_cons_succ] at h2
    rw [monthSplit]
    have harg : (List.take (m + 1) (len :: rest)).sum + dd - 1
        = len + ((rest.take m).sum + dd - 1) := by
      simp only [List.take_succ_cons, List.sum_cons]
      omega
    rw [harg]
    rw [if_neg (by omega)]
    have harg2 : len + ((rest.take m).sum + dd - 1) - len = (rest.take m).sum + dd - 1 := by
      omega
    rw [harg2, monthSplit_inv rest m dd hm h1 h2]

lemma monthLengthsN_length (y : ℤ) : (monthLengthsN y).length = 12 := by
  unfold monthLengthsN; rfl

lemma monthLengthsN_sum (y : ℤ) : (monthLengthsN y).sum = daysInYearN y := by
  unfold monthLengthsN daysInYearN
  split <;> rfl

lemma monthLengthsN_pos (y : ℤ) : ∀ m, m < 12 → 1 ≤ (monthLengthsN y).getD m 0 := by
  unfold monthLengthsN
  split <;> decide

lemma sum_take_le : ∀ (ls : List ℕ) (k : ℕ), (ls.take k).sum ≤ ls.sum
  | [], _ => by simp
  | _ :: _, 0 => by simp
  | a :: rest, k + 1 => by
    simp only [List.take_succ_cons, List.sum_cons]
    exact Nat.add_le_add_left (sum_take_le rest k) a

lemma sum_take_getD : ∀ (ls : List ℕ) (m : ℕ), m < ls.length →
    (ls.take (m + 1)).sum = (ls.take m).sum + ls.getD m 0
  | [], m => by simp
  | a :: rest, 0 => by simp
  | a :: rest, m + 1 => by
    intro hm
    simp only [List.length_cons, Nat.add_lt_add_iff_right] at hm
    simp only [List.take_succ_cons, List.sum_cons, List.getD_cons_succ]
    rw [sum_take_getD rest m hm]
    omega

lemma sum_take_getD_le (ls : List ℕ) (m : ℕ) (hm : m < ls.length) :
    (ls.take m).sum + ls.getD m 0 ≤ ls.sum := by
  rw [← sum_take_getD ls m hm]
  exact sum_take_le ls (m + 1)

/-- Civil (proleptic Gregorian) date of a local day number:
`(year, zero-based month, one-based day-of-month)`. -/
def civilFromDays (n : ℤ) : ℤ × ℕ × ℕ :=
  ((if 0 ≤ n then yearSplit 1970 n.toNat else yearSplitNeg 1970 (-n).toNat).1,
   (monthSplit
      (monthLengthsN (if 0 ≤ n then yearSplit 1970 n.toNat else yearSplitNeg 1970 (-n).toNat).1)
      (if 0 ≤ n then yearSplit 1970 n.toNat else yearSplitNeg 1970 (-n).toNat).2).1,
   (monthSplit
      (monthLengthsN (if 0 ≤ n then yearSplit 1970 n.toNat else yearSplitNeg 1970 (-n).toNat).1)
      (if 0 ≤ n then yearSplit 1970 n.toNat else yearSplitNeg 1970 (-n).toNat).2).2)

/-- JS `d.getFullYear()` (local). -/
def getFullYear (t : JSDate) : ℤ := (civilFromDays (dayNumber t)).1

/-- JS `d.getMonth()` (local, `0` = January). -/
def getMonth (t : JSDate) : ℤ := ((civilFromDays (dayNumber t)).2.1 : ℤ)

/-- JS `d.getDate()` (local, one-based day of month). -/
def getDate (t : JSDate) : ℤ := ((civilFromDays (dayNumber t)).2.2 : ℤ)

/-- JS `d.setDate(x)`: move to day `x` of the current month (with calendar
normalisation for out-of-range `x`), keeping the time of day. -/
def setDate (t : JSDate) (x : ℤ) : JSDate := t + (x - getDate t) * msPerDay

/-- Days in the months of year `y` before month `m` (zero-based). -/
def monthsBefore (y : ℤ) (m : ℕ) : ℤ := (((monthLengthsN y).take m).sum : ℤ)

/-- JS `new Date(year, month, day)` (local midnight), with month and day
normalisation exactly as the `Date` constructor performs it. -/
def mkDate (year month day : ℤ) : JSDate :=
  (daysBeforeYear (year + month / 12)
    + monthsBefore (year + month / 12) (month % 12).toNat + (day - 1)) * msPerDay

lemma msPerDay_pos : (0:ℤ) < msPerDay := by unfold msPerDay; norm_num

lemma dayNumber_setHoursZero (t : JSDate) : dayNumber (setHoursZero t) = dayNumber t := by
  unfold setHoursZero dayNumber
  exact Int.mul_ediv_cancel _ (by unfold msPerDay; norm_num)

lemma getDay_setHoursZero (t : JSDate) : getDay (setHoursZero t) = getDay t := by
  unfold getDay
  rw [dayNumber_setHoursZero]

lemma getDate_setHoursZero (t : JSDate) : getDate (setHoursZero t) = getDate t := by
  unfold getDate
  rw [dayNumber_setHoursZero]

lemma dayNumber_mul (n : ℤ) : dayNumber (n * msPerDay) = n := by
  unfold dayNumber
  exact Int.mul_ediv_cancel _ (by unfold msPerDay; norm_num)

lemma timeOfDay_mul (n : ℤ) : timeOfDay (n * msPerDay) = 0 := by
  unfold timeOfDay
  exact Int.mul_emod_left n msPerDay

lemma getDay_bounds (t : JSDate) : 0 ≤ getDay t ∧ getDay t < 7 := by
  unfold getDay
  constructor
  · exact Int.emod_nonneg _ (by norm_num)
  · exact Int.emod_lt_of_pos _ (by norm_num)

lemma civilFromDays_valid (n : ℤ) (hn : 0 ≤ n) :
    1970 ≤ (civilFromDays n).1 ∧ (civilFromDays n).2.1 < 12 ∧
      1 ≤ (civilFromDays n).2.2 ∧
      (civilFromDays n).2.2 ≤ (monthLengthsN (civilFromDays n).1).getD (civilFromDays n).2.1 0 ∧
      n = daysBeforeYear (civilFromDays n).1
          + monthsBefore (civilFromDays n).1 (civilFromDays n).2.1
          + (civilFromDays n).2.2 - 1 := by
  unfold civilFromDays
  rw [if_pos hn]
  dsimp only
  have hy := yearSplit_spec n.toNat 1970
  have hd : (yearSplit 1970 n.toNat).2 < (monthLengthsN (yearSplit 1970 n.toNat).1).sum := by
    rw [monthLengthsN_sum]; exact hy.2.1
  have hm := monthSplit_spec (monthLengthsN (yearSplit 1970 n.toNat).1)
    (yearSplit 1970 n.toNat).2 hd
  have h1 := hy.2.2
  rw [daysBeforeYear_base] at h1
  have h2 := hm.2.2.2
  have hcast : (n.toNat : ℤ) = n := Int.toNat_of_nonneg hn
  refine ⟨hy.1, ?_, hm.2.1, hm.2.2.1, ?_⟩
  · have := hm.1
    rwa [monthLengthsN_length] at this
  · unfold monthsBefore
    have hm21 := hm.2.1
    omega

lemma civilFromDays_inv (y : ℤ) (m dd : ℕ) (hy : 1970 ≤ y) (hm : m < 12)
    (hd1 : 1 ≤ dd) (hd2 : dd ≤ (monthLengthsN y).getD m 0) :
    civilFromDays (daysBeforeYear y + monthsBefore y m + dd - 1) = (y, m, dd) := by
  have hsb : 0 ≤ monthsBefore y m := by
    unfold monthsBefore; positivity
  have hnn : 0 ≤ daysBeforeYear y + monthsBefore y m + (dd : ℤ) - 1 := by
    have := daysBeforeYear_nonneg y hy
    omega
  have hlen : m < (monthLengthsN y).length := by rw [monthLengthsN_length]; exact hm
  have hdoy : ((monthLengthsN y).take m).sum + dd - 1 < daysInYearN y := by
    rw [← monthLengthsN_sum]
    have := sum_take_getD_le (monthLengthsN y) m hlen
    omega
  have hys : yearSplit 1970 (daysBeforeYear y + monthsBefore y m + dd - 1).toNat
      = (y, ((monthLengthsN y).take m).sum + dd - 1) := by
    apply yearSplit_inv _ _ _ _ (by omega) hdoy
    rw [daysBeforeYear_base]
    unfold monthsBefore at hnn ⊢
    omega
  have hms : monthSplit (monthLengthsN y) (((monthLengthsN y).take m).sum + dd - 1)
      = (m, dd) := monthSplit_inv (monthLengthsN y) m dd hlen hd1 hd2
  unfold civilFromDays
  rw [if_pos hnn, hys]
  simp only [hms]

/-! ### Data model (`Transaction`, `Expense`, `UserData`, `AppData`) -/

/-- Goal cadence (`UserData.goalType`). -/
inductive GoalType where
  | weekly
  | monthly
deriving DecidableEq

/-- Payment channel (`Transaction.type`). -/
inductive PayType where
  | cash
  | card
deriving DecidableEq

/-- Transaction category (`Transaction.category`, optional in the source). -/
inductive Category where
  | service
  | tip
deriving DecidableEq

/-- Expense frequency (`Expense.frequency`). -/
inductive Frequency where
  | daily
  | weekly
deriving DecidableEq

/-- A logged transaction.  `date` is the ISO-8601 timestamp string, which
compares lexicographically exactly as the instant it denotes, so it is
modelled by the instant. -/
structure Transaction where
  id : ℤ
  amount : ℚ
  type : PayType
  category : Option Category
  date : ℤ
deriving DecidableEq

/-- A recurring fixed expense. -/
structure Expense where
  id : ℤ
  name : String
  amount : ℚ
  frequency : Frequency
deriving DecidableEq

/-- The user profile (goal singleton). -/
structure UserData where
  name : String
  goalType : GoalType
  goalAmount : ℚ
  simulatorValue : ℤ
deriving DecidableEq

/-- The persisted aggregate (`AppData`). -/
structure AppData where
  user : Option UserData
  transactions : List Transaction
  expenses : List Expense
deriving DecidableEq

/-! ### PeriodCalculator: `getStartOfPeriod` and the `daysLeft` computation -/

/-- `getStartOfPeriod` (source lines 74–85): truncate to local midnight,
then move to the first of the month (monthly) or to the Monday of the
current Monday-started week (weekly, Sunday counted as day 7 of the
previous boundary). -/
def getStartOfPeriod (date : JSDate) (type : GoalType) : JSDate :=
  let d := setHoursZero date
  if type = .monthly then
    setDate d 1
  else
    let day := getDay d
    let diff := getDate d - day + (if day = 0 then -6 else 1)
    setDate d diff

/-- The days-remaining computation (source lines 523–531): for weekly,
`7 - (day == 0 ? 7 : day) + 1`; for monthly, the day-of-month of
`new Date(year, month + 1, 0)` minus today's day-of-month plus one. -/
def daysLeft (now : JSDate) (goalType : GoalType) : ℤ :=
  if goalType = .weekly then
    let day := getDay now
    7 - (if day = 0 then 7 else day) + 1
  else
    let lastDay := mkDate (getFullYear now) (getMonth now + 1) 0
    getDate lastDay - getDate now + 1

/-! ### TimeWindowFilter / AggregationEngine (source lines 502–521) -/

/-- `transactionsToday` (source line 504): transactions whose ISO timestamp
is lexicographically `≥` the start-of-day string.  There is no upper
bound. -/
def transactionsToday (txs : List Transaction) (startOfDayStr : ℤ) : List Transaction :=
  txs.filter fun t => startOfDayStr ≤ t.date

/-- `grossToday` (source line 505): sum of today's amounts. -/
def grossToday (txs : List Transaction) (startOfDayStr : ℤ) : ℚ :=
  (transactionsToday txs startOfDayStr).foldl (fun sum t => sum + t.amount) 0

/-- `tipsToday` (source lines 507–509): sum of today's amounts whose
category is exactly `tip`. -/
def tipsToday (txs : List Transaction) (startOfDayStr : ℤ) : ℚ :=
  ((transactionsToday txs startOfDayStr).filter fun t => t.category == some .tip).foldl
    (fun sum t => sum + t.amount) 0

/-- `transactionsPeriod` (source line 519): transactions from the start of
the goal period on. -/
def transactionsPeriod (txs : List Transaction) (startOfPeriod : JSDate) : List Transaction :=
  txs.filter fun t => startOfPeriod ≤ t.date

/-- `periodTotal` (source line 520). -/
def periodTotal (txs : List Transaction) (startOfPeriod : JSDate) : ℚ :=
  (transactionsPeriod txs startOfPeriod).foldl (fun sum t => sum + t.amount) 0

/-! ### BurnRateNormalizer (source lines 511–516) -/

/-- `dailyExpenses` (source lines 511–514): daily amounts count in full,
any other frequency (weekly) contributes `amount / 7`, exactly. -/
def dailyExpenses (expenses : List Expense) : ℚ :=
  expenses.foldl
    (fun sum exp => if exp.frequency = .daily then sum + exp.amount else sum + exp.amount / 7) 0

/-- `netToday` (source line 516): unrounded. -/
def netToday (txs : List Transaction) (startOfDayStr : ℤ) (expenses : List Expense) : ℚ :=
  grossToday txs startOfDayStr - dailyExpenses expenses

/-- The burn figure as rendered (source line 650): `Math.ceil(dailyExpenses)`. -/
def displayedBurn (expenses : List Expense) : ℤ := ⌈dailyExpenses expenses⌉

/-- The net-today figure as rendered (source line 655): `Math.floor(netToday)`. -/
def displayedNet (txs : List Transaction) (startOfDayStr : ℤ) (expenses : List Expense) : ℤ :=
  ⌊netToday txs startOfDayStr expenses⌋

/-! ### GoalProjector (source lines 521, 533–535)

JS numbers are IEEE-754 doubles: dividing by zero produces `±Infinity` or
`NaN`, and `Math.min` propagates `NaN`.  The values reachable in the
goal-progress expression are modelled exactly (a rational, `NaN`, or
`±Infinity`); IEEE rounding of in-range results is abstracted away, which
does not affect the zero/sign/clamping behaviour at issue. -/

/-- A JS number: a finite value, `NaN`, `Infinity` or `-Infinity`. -/
inductive JSNum where
  | num (q : ℚ)
  | nan
  | inf
  | ninf
deriving DecidableEq

/-- JS division, restricted to the values above (`+0` semantics for the
literal zero; `-0` does not arise in the program). -/
def jsDiv : JSNum → JSNum → JSNum
  | .num a, .num b =>
      if b = 0 then (if a = 0 then .nan else if 0 < a then .inf else .ninf)
      else .num (a / b)
  | .nan, _ => .nan
  | _, .nan => .nan
  | .inf, .num b => if 0 ≤ b then .inf else .ninf
  | .ninf, .num b => if 0 ≤ b then .ninf else .inf
  | .num _, .inf => .num 0
  | .num _, .ninf => .num 0
  | .inf, .inf => .nan
  | .inf, .ninf => .nan
  | .ninf, .inf => .nan
  | .ninf, .ninf => .nan

/-- JS multiplication on the same values. -/
def jsMul : JSNum → JSNum → JSNum
  | .num a, .num b => .num (a * b)
  | .nan, _ => .nan
  | _, .nan => .nan
  | .inf, .num b => if b = 0 then .nan else if 0 < b then .inf else .ninf
  | .num a, .inf => if a = 0 then .nan else if 0 < a then .inf else .ninf
  | .ninf, .num b => if b = 0 then .nan else if 0 < b then .ninf else .inf
  | .num a, .ninf => if a = 0 then .nan else if 0 < a then .ninf else .inf
  | .inf, .inf => .inf
  | .inf, .ninf => .ninf
  | .ninf, .inf => .ninf
  | .ninf, .ninf => .inf

/-- JS `Math.min` (propagates `NaN`). -/
def jsMin : JSNum → JSNum → JSNum
  | .nan, _ => .nan
  | _, .nan => .nan
  | .num a, .num b => .num (min a b)
  | .ninf, _ => .ninf
  | _, .ninf => .ninf
  | .inf, x => x
  | .num a, .inf => .num a

/-- `goalProgress` (source line 521):
`Math.min(100, (periodTotal / goalAmount) * 100)`. -/
def goalProgress (periodTotal goalAmount : ℚ) : JSNum :=
  jsMin (.num 100) (jsMul (jsDiv (.num periodTotal) (.num goalAmount)) (.num 100))

/-- `AVG_CUT_PRICE` (source line 48). -/
def AVG_CUT_PRICE : ℚ := 35

/-- `remainingGoal` (source line 533). -/
def remainingGoal (goalAmount periodTotal : ℚ) : ℚ := max 0 (goalAmount - periodTotal)

/-- `cutsNeededTotal` (source line 534). -/
def cutsNeededTotal (goalAmount periodTotal : ℚ) : ℚ :=
  remainingGoal goalAmount periodTotal / AVG_CUT_PRICE

/-- `cutsPerDay` (source line 535): `Math.ceil(cutsNeededTotal / daysLeft)`.
The program only evaluates this with `daysLeft ≥ 1` (proved below), where
the JS value is finite and the model is exact. -/
def cutsPerDay (goalAmount periodTotal : ℚ) (daysLeft : ℤ) : ℤ :=
  ⌈cutsNeededTotal goalAmount periodTotal / (daysLeft : ℚ)⌉

/-! ### HistoryModal grouping (source lines 337–355)

`toDateString()` yields one string per local calendar day (independent of
the time of day), so the grouping key is modelled by the local day number.
`Object.values` returns entries in insertion order, and `sort` with the
comparator `b.dateObj.getTime() - a.dateObj.getTime()` produces the unique
descending-by-instant permutation (all stored instants are distinct, one
per calendar day), which any correct sorting routine computes. -/

/-- A row of the grouped history (`DaySummary` in the source): `dayKey`
models the `toDateString` key, `dateObj` the first transaction's instant. -/
structure DaySummary where
  dayKey : ℤ
  dateObj : ℤ
  total : ℚ
  count : ℕ
deriving DecidableEq

/-- One step of the grouping `forEach` (source lines 339–353). -/
def insertTx (acc : List DaySummary) (t : Transaction) : List DaySummary :=
  let key := dayNumber t.date
  let acc' := if acc.any fun s => s.dayKey == key then acc
              else acc ++ [{ dayKey := key, dateObj := t.date, total := 0, count := 0 }]
  acc'.map fun s =>
    if s.dayKey == key then { s with total := s.total + t.amount, count := s.count + 1 } else s

/-- The `grouped` record, as the insertion-ordered list of its values. -/
def grouped (txs : List Transaction) : List DaySummary := txs.foldl insertTx []

/-- The sort order used by `historyList`: descending by `dateObj`. -/
def byDateDesc (a b : DaySummary) : Prop := b.dateObj ≤ a.dateObj

instance : DecidableRel byDateDesc := fun a b => by
  unfold byDateDesc; infer_instance

instance : IsTotal DaySummary byDateDesc :=
  ⟨fun a b => le_total b.dateObj a.dateObj⟩

instance : IsTrans DaySummary byDateDesc :=
  ⟨fun _ _ _ h1 h2 => le_trans h2 h1⟩

/-- `historyList` (source line 355). -/
def historyList (txs : List Transaction) : List DaySummary :=
  (grouped txs).insertionSort byDateDesc

/-! ### Storage (`getInitialData`, source lines 51–66)

`localStorage.getItem` returns the record or nothing; `JSON.parse` either
throws or yields a JSON value.  The boundary is modelled as
`Option (Except Unit Json)`: `none` = no record, `some (.error ())` =
unparsable record, `some (.ok j)` = record parsing to `j`.  The modules are
ES modules (strict mode), so assigning a property on a primitive throws. -/

/-- A parsed JSON value. -/
inductive Json where
  | null
  | bool (b : Bool)
  | num (q : ℚ)
  | str (s : String)
  | arr (xs : List Json)
  | obj (fields : List (String × Json))

/-- Field lookup in a JSON object literal. -/
def lookupField (fs : List (String × Json)) (k : String) : Option Json :=
  match fs.find? fun p => p.1 == k with
  | some p => some p.2
  | none => none

/-- JS property read `j[k]`: throws `TypeError` on `null`; yields the field
or `undefined` (`none`) on an object; yields `undefined` on other values. -/
def getProp : Json → String → Except Unit (Option Json)
  | .null, _ => .error ()
  | .obj fs, k => .ok (lookupField fs k)
  | _, _ => .ok none

/-- Field update/insert in a JSON object literal. -/
def setField (fs : List (String × Json)) (k : String) (v : Json) : List (String × Json) :=
  if fs.any fun p => p.1 == k then fs.map fun p => if p.1 == k then (k, v) else p
  else fs ++ [(k, v)]

/-- JS property write `j[k] = v` in strict mode: succeeds on an object,
throws `TypeError` on `null` and on primitives.  It also succeeds on an
array (arrays are objects); the write creates a non-index property, which
is invisible to the JSON value the array denotes (any JSON serialisation
drops it), so the array is unchanged as a `Json` value. -/
def setProp : Json → String → Json → Except Unit Json
  | .obj fs, k, v => .ok (.obj (setField fs k v))
  | .arr xs, _, _ => .ok (.arr xs)
  | _, _, _ => .error ()

/-- JS truthiness. -/
def truthy : Json → Bool
  | .null => false
  | .bool b => b
  | .num q => q != 0
  | .str s => s != ""
  | .arr _ => true
  | .obj _ => true

/-- The empty snapshot `{ user: null, transactions: [], expenses: [] }`. -/
def emptyData : Json :=
  .obj [("user", .null), ("transactions", .arr []), ("expenses", .arr [])]

/-- The body of the `try` block after parsing (source lines 57–60):
`if (parsed.user && typeof parsed.user.simulatorValue === 'undefined')
parsed.user.simulatorValue = 0; return parsed;`. -/
def patchSimulator (parsed : Json) : Except Unit Json :=
  match getProp parsed "user" with
  | .error e => .error e
  | .ok none => .ok parsed
  | .ok (some user) =>
      if truthy user then
        match getProp user "simulatorValue" with
        | .error e => .error e
        | .ok (some _) => .ok parsed
        | .ok none =>
            match setProp user "simulatorValue" (.num 0) with
            | .error e => .error e
            | .ok user' => setProp parsed "user" user'
      else .ok parsed

/-- `getInitialData` (source lines 51–66).  Any exception inside the `try`
(unparsable JSON, or a property access/write that throws) falls through to
the empty snapshot. -/
def getInitialData (hasWindow : Bool) (saved : Option (Except Unit Json)) : Json :=
  if !hasWindow then emptyData
  else
    match saved with
    | some (.error _) => emptyData
    | some (.ok parsed) =>
        match patchSimulator parsed with
        | .ok v => v
        | .error _ => emptyData
    | none => emptyData

/-- Type test for a JSON string. -/
def isStr : Json → Bool
  | .str _ => true
  | _ => false

/-- Type test for a JSON number. -/
def isNum : Json → Bool
  | .num _ => true
  | _ => false

/-- Well-formedness of a persisted `UserData` value per the source's
`interface UserData` (lines 26–31). -/
def wfUserData : Json → Bool
  | .obj fs =>
      (match lookupField fs "name" with | some v => isStr v | none => false) &&
      (match lookupField fs "goalType" with
       | some (.str s) => s == "weekly" || s == "monthly"
       | _ => false) &&
      (match lookupField fs "goalAmount" with | some v => isNum v | none => false) &&
      (match lookupField fs "simulatorValue" with | some v => isNum v | none => false)
  | _ => false

/-- Well-formedness of a persisted `Transaction` per `interface Transaction`
(lines 11–17). -/
def wfTransactionJson : Json → Bool
  | .obj fs =>
      (match lookupField fs "id" with | some v => isNum v | none => false) &&
      (match lookupField fs "amount" with | some v => isNum v | none => false) &&
      (match lookupField fs "type" with
       | some (.str s) => s == "cash" || s == "card"
       | _ => false) &&
      (match lookupField fs "category" with
       | some (.str s) => s == "service" || s == "tip"
       | some _ => false
       | none => true) &&
      (match lookupField fs "date" with | some v => isStr v | none => false)
  | _ => false

/-- Well-formedness of a persisted `Expense` per `interface Expense`
(lines 19–24). -/
def wfExpenseJson : Json → Bool
  | .obj fs =>
      (match lookupField fs "id" with | some v => isNum v | none => false) &&
      (match lookupField fs "name" with | some v => isStr v | none => false) &&
      (match lookupField fs "amount" with | some v => isNum v | none => false) &&
      (match lookupField fs "frequency" with
       | some (.str s) => s == "daily" || s == "weekly"
       | _ => false)
  | _ => false

/-- Well-formedness of a persisted snapshot per `interface AppData`
(lines 33–37). -/
def wfAppData : Json → Bool
  | .obj fs =>
      (match lookupField fs "user" with
       | some .null => true
       | some v => wfUserData v
       | none => false) &&
      (match lookupField fs "transactions" with
       | some (.arr xs) => xs.all wfTransactionJson
       | _ => false) &&
      (match lookupField fs "expenses" with
       | some (.arr xs) => xs.all wfExpenseJson
       | _ => false)
  | _ => false

/-- A persisted record is a well-formed snapshot when it parses to a
well-formed `AppData` value. -/
def wfRecord : Option (Except Unit Json) → Bool
  | some (.ok j) => wfAppData j
  | _ => false

/-! ### Transaction creation (`handleTransaction`, source lines 411–424)

`id: Date.now()` and `date: new Date().toISOString()` read the same clock
at creation time; both are modelled by the creation instant `nowMs`. -/

/-- `handleTransaction`: append a new transaction stamped with the current
clock reading. -/
def handleTransaction (nowMs : ℤ) (amount : ℚ) (ty : PayType) (cat : Category)
    (prev : AppData) : AppData :=
  { prev with
    transactions := prev.transactions ++
      [{ id := nowMs, amount := amount, type := ty, category := some cat, date := nowMs }] }

/-- One user action of entering a transaction: the clock reading at the
moment of creation plus the form data. -/
structure CreationEvent where
  time : ℤ
  amount : ℚ
  ty : PayType
  cat : Category

/-- The transaction a creation event produces. -/
def eventTx (e : CreationEvent) : Transaction :=
  { id := e.time, amount := e.amount, type := e.ty, category := some e.cat, date := e.time }

/-- The snapshot reached from the empty snapshot by a sequence of
transaction entries. -/
def buildState (evs : List CreationEvent) : AppData :=
  evs.foldl (fun s e => handleTransaction e.time e.amount e.ty e.cat s)
    { user := none, transactions := [], expenses := [] }

/-! ### Helper lemmas -/

lemma foldl_add_map {α : Type} (f : α → ℚ) :
    ∀ (l : List α) (init : ℚ), l.foldl (fun s x => s + f x) init = init + (l.map f).sum
  | [], init => by simp
  | a :: rest, init => by
    simp only [List.foldl_cons, List.map_cons, List.sum_cons]
    rw [foldl_add_map f rest (init + f a)]
    ring

lemma dailyExpenses_eq_sum (expenses : List Expense) :
    dailyExpenses expenses
      = (expenses.map fun e => if e.frequency = .daily then e.amount else e.amount / 7).sum := by
  unfold dailyExpenses
  have : (fun (sum : ℚ) (exp : Expense) =>
        if exp.frequency = .daily then sum + exp.amount else sum + exp.amount / 7)
      = fun (sum : ℚ) (exp : Expense) =>
        sum + (if exp.frequency = .daily then exp.amount else exp.amount / 7) := by
    funext s e
    split <;> rfl
  rw [this, foldl_add_map]
  ring

lemma jsDiv_num (a b : ℚ) (h : b ≠ 0) : jsDiv (.num a) (.num b) = .num (a / b) := by
  have e : jsDiv (.num a) (.num b)
      = if b = 0 then (if a = 0 then .nan else if 0 < a then .inf else .ninf)
        else .num (a / b) := rfl
  rw [e, if_neg h]

lemma jsDiv_zero_pos (a : ℚ) (h : 0 < a) : jsDiv (.num a) (.num 0) = .inf := by
  have e : jsDiv (.num a) (.num 0)
      = if (0 : ℚ) = 0 then (if a = 0 then .nan else if 0 < a then .inf else .ninf)
        else .num (a / 0) := rfl
  rw [e, if_pos rfl, if_neg h.ne', if_pos h]

lemma jsMul_num (a b : ℚ) : jsMul (.num a) (.num b) = .num (a * b) := rfl

lemma jsMin_num (a b : ℚ) : jsMin (.num a) (.num b) = .num (min a b) := rfl

lemma jsMul_inf_pos (b : ℚ) (h : 0 < b) : jsMul .inf (.num b) = .inf := by
  have e : jsMul .inf (.num b)
      = if b = 0 then .nan else if 0 < b then .inf else .ninf := rfl
  rw [e, if_neg h.ne', if_pos h]

/-- Claim C7: the burn-rate normalisation is exact — `dailyExpenses` is the
unrounded sum of `amount` (daily) and `amount / 7` (weekly) contributions,
`netToday` is computed from that unrounded value, and only the rendered
figures apply `Math.ceil` (burn) and `Math.floor` (net today), both
functions of the same unrounded `netToday` (and `grossToday`). -/
theorem burn_rate_unrounded (expenses : List Expense) (txs : List Transaction)
    (startStr : ℤ) :
    dailyExpenses expenses
        = (expenses.map fun e => if e.frequency = .daily then e.amount else e.amount / 7).sum
      ∧ netToday txs startStr expenses = grossToday txs startStr - dailyExpenses expenses
      ∧ displayedBurn expenses = ⌈dailyExpenses expenses⌉
      ∧ displayedNet txs startStr expenses = ⌊netToday txs startStr expenses⌋
      ∧ displayedBurn expenses = ⌈grossToday txs startStr - netToday txs startStr expenses⌉ := by
  refine ⟨dailyExpenses_eq_sum expenses, rfl, rfl, rfl, ?_⟩
  unfold displayedBurn netToday
  congr 1
  ring

/-- Claim C2: for a positive goal amount and non-negative period total, the
progress percentage is exactly `min(100, periodTotal / goalAmount * 100)`,
which lies in `[0, 100]` however far the total overshoots. -/
theorem goal_progress_clamped (pt ga : ℚ) (hga : 0 < ga) (hpt : 0 ≤ pt) :
    goalProgress pt ga = .num (min 100 (pt / ga * 100))
      ∧ 0 ≤ min (100 : ℚ) (pt / ga * 100) ∧ min (100 : ℚ) (pt / ga * 100) ≤ 100 := by
  refine ⟨?_, ?_, min_le_left _ _⟩
  · unfold goalProgress
    rw [jsDiv_num pt ga hga.ne', jsMul_num, jsMin_num]
  · exact le_min (by norm_num) (mul_nonneg (div_nonneg hpt hga.le) (by norm_num))

/-- Witness for `goal_progress_clamped` at the spec's example
`periodTotal = 250`, `goalAmount = 1000`. -/
theorem goal_progress_clamped_witness :
    goalProgress 250 1000 = .num (min 100 (250 / 1000 * 100))
      ∧ 0 ≤ min (100 : ℚ) (250 / 1000 * 100) ∧ min (100 : ℚ) (250 / 1000 * 100) ≤ 100 :=
  goal_progress_clamped 250 1000 (by norm_num) (by norm_num)

/-- Claim C1 (counterexample): the code does not special-case a zero or
negative goal amount.  With `goalAmount = 0` and `periodTotal = 0` the
progress is `0 / 0 * 100 = NaN`, not `100`; with `goalAmount = -100` and
`periodTotal = 100` it is `-100`, not `100`. -/
theorem goal_progress_zero_counterexample :
    goalProgress 0 0 = .nan ∧ JSNum.nan ≠ JSNum.num 100
      ∧ goalProgress 100 (-100) = .num (-100) ∧ JSNum.num (-100) ≠ JSNum.num 100 := by
  refine ⟨by decide, by decide, ?_, ?_⟩
  · unfold goalProgress
    rw [jsDiv_num 100 (-100) (by norm_num), jsMul_num, jsMin_num]
    rw [show (100 : ℚ) / (-100) * 100 = -100 by norm_num,
      min_eq_right (by norm_num : (-100 : ℚ) ≤ 100)]
  · intro h
    have := JSNum.num.inj h
    norm_num at this

/-- Claim C1 (amended): with the source's IEEE semantics, a zero goal amount
yields progress `100` only when the period total is positive (the division
gives `+Infinity`, clamped by `Math.min`); when the period total is also
zero the progress is `NaN`, and a negative goal amount yields the negative
value `periodTotal / goalAmount * 100` unclamped below. -/
theorem goal_progress_zero_amended :
    (∀ pt : ℚ, 0 < pt → goalProgress pt 0 = .num 100)
      ∧ goalProgress 0 0 = .nan
      ∧ (∀ pt ga : ℚ, 0 < pt → ga < 0 →
          goalProgress pt ga = .num (pt / ga * 100) ∧ pt / ga * 100 < 0) := by
  refine ⟨?_, by decide, ?_⟩
  · intro pt hpt
    unfold goalProgress
    rw [jsDiv_zero_pos pt hpt, jsMul_inf_pos 100 (by norm_num)]
    rfl
  · intro pt ga hpt hga
    have hneg : pt / ga * 100 < 0 :=
      mul_neg_of_neg_of_pos (div_neg_of_pos_of_neg hpt hga) (by norm_num)
    constructor
    · unfold goalProgress
      rw [jsDiv_num pt ga hga.ne, jsMul_num, jsMin_num]
      rw [min_eq_right (le_of_lt (lt_trans hneg (by norm_num)))]
    · exact hneg

/-- Witness for `goal_progress_zero_amended`. -/
theorem goal_progress_zero_amended_witness :
    goalProgress 1 0 = .num 100 ∧ goalProgress 100 (-100) = .num (100 / (-100) * 100) :=
  ⟨goal_progress_zero_amended.1 1 (by norm_num),
   (goal_progress_zero_amended.2.2 100 (-100) (by norm_num) (by norm_num)).1⟩

/-- Claim C6: the projection outputs — `remaining = max(0, goal - total)`,
`cutsNeededTotal = remaining / 35`, `cutsPerDay = ceil(total / daysLeft)`,
zero as soon as the goal is met, and the spec's worked example
`goal = 1000, total = 250, daysLeft = 5 ⟹ 750, 150/7 = 21.43…, 5`. -/
theorem goal_projection_outputs (ga pt : ℚ) (dl : ℤ) (_hdl : 1 ≤ dl) :
    remainingGoal ga pt = max 0 (ga - pt)
      ∧ cutsNeededTotal ga pt = remainingGoal ga pt / 35
      ∧ cutsPerDay ga pt dl = ⌈cutsNeededTotal ga pt / (dl : ℚ)⌉
      ∧ (remainingGoal ga pt = 0 → cutsPerDay ga pt dl = 0)
      ∧ remainingGoal 1000 250 = 750
      ∧ cutsNeededTotal 1000 250 = 150 / 7
      ∧ cutsPerDay 1000 250 5 = 5 := by
  refine ⟨rfl, rfl, rfl, ?_, ?_, ?_, ?_⟩
  · intro h
    unfold cutsPerDay cutsNeededTotal
    rw [h]
    simp
  · unfold remainingGoal
    rw [max_eq_right (by norm_num : (0 : ℚ) ≤ 1000 - 250)]
    norm_num
  · unfold cutsNeededTotal remainingGoal AVG_CUT_PRICE
    rw [max_eq_right (by norm_num : (0 : ℚ) ≤ 1000 - 250)]
    norm_num
  · unfold cutsPerDay cutsNeededTotal remainingGoal AVG_CUT_PRICE
    rw [max_eq_right (by norm_num : (0 : ℚ) ≤ 1000 - 250)]
    rw [show ((1000 : ℚ) - 250) / 35 / ((5 : ℤ) : ℚ) = 30 / 7 by norm_num]
    rw [Int.ceil_eq_iff]
    constructor <;> norm_num

/-- Witness for `goal_projection_outputs` at the spec's example inputs. -/
theorem goal_projection_outputs_witness :
    remainingGoal 1000 250 = max 0 (1000 - 250) ∧ cutsPerDay 1000 250 5 = 5 :=
  ⟨(goal_projection_outputs 1000 250 5 (by norm_num)).1,
   (goal_projection_outputs 1000 250 5 (by norm_num)).2.2.2.2.2.2⟩

/-! ### Claim C5: the "today" window -/

/-- The spec's example transaction log: a 200 service entry at 09:00 and a
50 tip at 10:00 of the current day (midnight = instant `0`). -/
def exampleDayTxs : List Transaction :=
  [{ id := 1, amount := 200, type := .cash, category := some .service, date := 32400000 },
   { id := 2, amount := 50, type := .cash, category := some .tip, date := 36000000 }]

/-- A transaction whose timestamp coincides with the window's right
endpoint (`end = now = 100` ms after midnight, midnight = `0`). -/
def lateTx : Transaction :=
  { id := 1, amount := 10, type := .cash, category := none, date := 100 }

/-- Claim C5 (counterexample): the today-filter keeps every transaction
with `start ≤ timestamp`; it has no upper endpoint, so a transaction whose
timestamp equals `end = now` (here `100`) is counted, contradicting the
claimed half-open window `start ≤ timestamp < end`. -/
theorem today_window_counterexample :
    transactionsToday [lateTx] 0 = [lateTx] ∧ ¬lateTx.date < (100 : ℤ) := by
  refine ⟨by decide, by decide⟩

/-- Claim C5 (amended): a transaction is counted **iff** `start ≤ timestamp`
(no upper bound is applied; timestamps at or past `now` are included), the
tip sum additionally requires an exact category match, and on the spec's
example the unfiltered sum is 250 and the tip-filtered sum is 50. -/
theorem today_window_amended :
    (∀ (txs : List Transaction) (start : ℤ) (t : Transaction),
        t ∈ transactionsToday txs start ↔ t ∈ txs ∧ start ≤ t.date)
      ∧ (∀ (txs : List Transaction) (start : ℤ) (t : Transaction),
          t ∈ (transactionsToday txs start).filter (fun t => t.category == some .tip)
            ↔ t ∈ txs ∧ start ≤ t.date ∧ t.category = some Category.tip)
      ∧ grossToday exampleDayTxs 0 = 250
      ∧ tipsToday exampleDayTxs 0 = 50 := by
  refine ⟨?_, ?_, ?_, ?_⟩
  · intro txs start t
    unfold transactionsToday
    rw [List.mem_filter]
    simp only [decide_eq_true_eq]
  · intro txs start t
    unfold transactionsToday
    rw [List.mem_filter, List.mem_filter]
    simp only [decide_eq_true_eq, beq_iff_eq]
    tauto
  · unfold grossToday transactionsToday exampleDayTxs
    norm_num
  · unfold tipsToday transactionsToday exampleDayTxs
    norm_num [List.filter_cons, beq_iff_eq]
    rw [if_neg (fun h => Category.noConfusion h)]
    norm_num

/-! ### Claim C9: loading the persisted record -/

/-- Claim C9 (counterexample): the record `"42"` is valid JSON but not a
well-formed snapshot, yet `getInitialData` returns it as-is instead of the
empty snapshot. -/
theorem load_malformed_counterexample :
    wfRecord (some (.ok (.num 42))) = false
      ∧ getInitialData true (some (.ok (.num 42))) = .num 42
      ∧ Json.num 42 ≠ emptyData := by
  refine ⟨rfl, rfl, fun h => Json.noConfusion h⟩

/-- Claim C9 (amended): `getInitialData` substitutes the empty snapshot
exactly when the record is missing, fails to parse, or the patch step
throws — the record parses to JSON `null` (the property read throws), or
its `user` field is a truthy primitive (non-zero number, non-empty string,
or `true`: the strict-mode property write throws).  Every other parsed
value is returned unvalidated, even when it is not a well-formed snapshot:
unchanged when `user` is undefined or falsy or already carries a
`simulatorValue` (and in particular when the record is well-formed), with
`simulatorValue` defaulted to `0` when `user` is an object lacking it, and
with an array `user` unchanged as a JSON value (the write lands on a
non-index array property).  The cases below cover every JSON record. -/
theorem load_guard_amended :
    getInitialData true none = emptyData
      ∧ getInitialData true (some (.error ())) = emptyData
      ∧ getInitialData true (some (.ok .null)) = emptyData
      ∧ (∀ j : Json, wfAppData j = true → getInitialData true (some (.ok j)) = j)
      ∧ (∀ j : Json, getProp j "user" = .ok none → getInitialData true (some (.ok j)) = j)
      ∧ (∀ j u : Json, getProp j "user" = .ok (some u) → truthy u = false →
          getInitialData true (some (.ok j)) = j)
      ∧ (∀ (fs : List (String × Json)) (u v : Json), lookupField fs "user" = some u →
          truthy u = true → getProp u "simulatorValue" = .ok (some v) →
          getInitialData true (some (.ok (.obj fs))) = .obj fs)
      ∧ (∀ (fs gs : List (String × Json)), lookupField fs "user" = some (.obj gs) →
          lookupField gs "simulatorValue" = none →
          getInitialData true (some (.ok (.obj fs)))
            = .obj (setField fs "user" (.obj (setField gs "simulatorValue" (.num 0)))))
      ∧ (∀ (fs : List (String × Json)) (xs : List Json),
          lookupField fs "user" = some (.arr xs) →
          getInitialData true (some (.ok (.obj fs)))
            = .obj (setField fs "user" (.arr xs)))
      ∧ (∀ (fs : List (String × Json)) (u : Json), lookupField fs "user" = some u →
          ((∃ q : ℚ, u = .num q ∧ q ≠ 0) ∨ (∃ s : String, u = .str s ∧ s ≠ "")
            ∨ u = .bool true) →
          getInitialData true (some (.ok (.obj fs))) = emptyData) := by
  refine ⟨rfl, rfl, rfl, ?_, ?_, ?_, ?_, ?_, ?_, ?_⟩
  pick_goal 2
  · intro j hj
    cases j with
    | null => simp [getProp] at hj
    | bool b => rfl
    | num q => rfl
    | str s => rfl
    | arr xs => rfl
    | obj fs =>
        have h' : lookupField fs "user" = none := by simpa [getProp] using hj
        simp [getInitialData, patchSimulator, getProp, h']
  pick_goal 2
  · intro j u hj hu
    cases j with
    | null => simp [getProp] at hj
    | bool b => simp [getProp] at hj
    | num q => simp [getProp] at hj
    | str s => simp [getProp] at hj
    | arr xs => simp [getProp] at hj
    | obj fs =>
        have h' : lookupField fs "user" = some u := by simpa [getProp] using hj
        simp [getInitialData, patchSimulator, getProp, h', hu]
  pick_goal 2
  · intro fs u v hfs htr hsv
    have h1 : getProp (Json.obj fs) "user" = Except.ok (lookupField fs "user") := rfl
    simp [getInitialData, patchSimulator, h1, hfs, htr, hsv]
  pick_goal 2
  · intro fs gs hfs hsv
    simp [getInitialData, patchSimulator, getProp, setProp, hfs, hsv, truthy]
  pick_goal 2
  · intro fs xs hfs
    simp [getInitialData, patchSimulator, getProp, setProp, hfs, truthy]
  pick_goal 2
  · intro fs u hfs hu
    rcases hu with ⟨q, rfl, hq⟩ | ⟨s, rfl, hs⟩ | rfl
    · simp [getInitialData, patchSimulator, getProp, setProp, hfs, truthy, bne_iff_ne, hq]
    · simp [getInitialData, patchSimulator, getProp, setProp, hfs, truthy, bne_iff_ne, hs]
    · simp [getInitialData, patchSimulator, getProp, setProp, hfs, truthy]
  intro j hj
  cases j with
  | null => exact absurd hj (by simp [wfAppData])
  | bool b => exact absurd hj (by simp [wfAppData])
  | num q => exact absurd hj (by simp [wfAppData])
  | str s => exact absurd hj (by simp [wfAppData])
  | arr xs => exact absurd hj (by simp [wfAppData])
  | obj fs =>
    unfold wfAppData at hj
    rw [Bool.and_eq_true, Bool.and_eq_true] at hj
    have huser := hj.1.1
    cases hu : lookupField fs "user" with
    | none => rw [hu] at huser; exact absurd huser (by simp)
    | some user =>
      rw [hu] at huser
      cases user with
      | null => simp [getInitialData, patchSimulator, getProp, hu, truthy]
      | bool b => exact absurd huser (by simp [wfUserData])
      | num q => exact absurd huser (by simp [wfUserData])
      | str s => exact absurd huser (by simp [wfUserData])
      | arr xs => exact absurd huser (by simp [wfUserData])
      | obj gs =>
        unfold wfUserData at huser
        rw [Bool.and_eq_true, Bool.and_eq_true, Bool.and_eq_true] at huser
        have hsv := huser.2
        cases hsv2 : lookupField gs "simulatorValue" with
        | none => rw [hsv2] at hsv; exact absurd hsv (by simp)
        | some v =>
          simp [getInitialData, patchSimulator, getProp, hu, truthy, hsv2]

/-- Witness for `load_guard_amended`: the empty snapshot itself is
well-formed and `load` returns it unchanged, and a record whose user
object lacks `simulatorValue` is returned with it patched to `0`. -/
theorem load_guard_amended_witness :
    wfAppData emptyData = true ∧ getInitialData true (some (.ok emptyData)) = emptyData
      ∧ getInitialData true (some (.ok (.obj [("user", .obj [("name", .str "A")])])))
        = .obj [("user", .obj [("name", .str "A"), ("simulatorValue", .num 0)])] :=
  ⟨rfl, load_guard_amended.2.2.2.1 emptyData rfl,
   (load_guard_amended.2.2.2.2.2.2.2.1 [("user", .obj [("name", .str "A")])]
      [("name", .str "A")] rfl rfl).trans rfl⟩

/-! ### Claim C10: transaction identifiers -/

lemma buildState_transactions (evs : List CreationEvent) :
    (buildState evs).transactions = evs.map eventTx := by
  have H : ∀ (l : List CreationEvent) (s : AppData),
      (l.foldl (fun s e => handleTransaction e.time e.amount e.ty e.cat s) s).transactions
        = s.transactions ++ l.map eventTx := by
    intro l
    induction l with
    | nil => intro s; simp
    | cons e rest ih =>
        intro s
        simp only [List.foldl_cons, List.map_cons]
        rw [ih]
        simp [handleTransaction, eventTx]
  unfold buildState
  rw [H]
  simp

/-- Two entries committed during the same clock millisecond. -/
def collidingEvents : List CreationEvent :=
  [{ time := 1000, amount := 50, ty := .cash, cat := .service },
   { time := 1000, amount := 60, ty := .cash, cat := .service }]

/-- Claim C10 (counterexample): `id: Date.now()` is the creation-time clock
reading, so two distinct transactions entered in the same millisecond get
the same identifier — the identifiers are neither unique nor strictly
increasing. -/
theorem tx_id_collision_counterexample :
    ((buildState collidingEvents).transactions.map Transaction.id) = [1000, 1000]
      ∧ ¬((buildState collidingEvents).transactions.map Transaction.id).Nodup
      ∧ ((buildState collidingEvents).transactions.map Transaction.amount) = [50, 60] := by
  refine ⟨by decide, by decide, ?_⟩
  rw [buildState_transactions]
  norm_num [collidingEvents, eventTx]

/-- Claim C10 (amended): identifiers are the creation-clock readings, so
they are unique and strictly creation-ordered exactly when the clock
readings of successive entries are strictly increasing (entries at least
one millisecond apart); same-millisecond entries collide. -/
theorem tx_id_monotone_amended (evs : List CreationEvent)
    (h : (evs.map CreationEvent.time).Pairwise (· < ·)) :
    ((buildState evs).transactions.map Transaction.id).Pairwise (· < ·)
      ∧ ((buildState evs).transactions.map Transaction.id).Nodup := by
  rw [buildState_transactions, List.map_map]
  have he : Transaction.id ∘ eventTx = CreationEvent.time := rfl
  rw [he]
  exact ⟨h, List.Pairwise.imp (fun hlt => ne_of_lt hlt) h⟩

/-- Two entries one millisecond apart. -/
def orderedEvents : List CreationEvent :=
  [{ time := 1000, amount := 50, ty := .cash, cat := .service },
   { time := 1001, amount := 60, ty := .card, cat := .tip }]

/-- Witness for `tx_id_monotone_amended`. -/
theorem tx_id_monotone_witness :
    ((buildState orderedEvents).transactions.map Transaction.id).Pairwise (· < ·)
      ∧ ((buildState orderedEvents).transactions.map Transaction.id).Nodup :=
  tx_id_monotone_amended orderedEvents (by decide)

/-! ### Claims C3 and C4: the period calculator -/

lemma gsp_weekly_eq (t : JSDate) :
    getStartOfPeriod t GoalType.weekly
      = (dayNumber t - getDay t + (if getDay t = 0 then -6 else 1)) * msPerDay := by
  simp only [getStartOfPeriod]
  rw [if_neg (by decide : ¬(GoalType.weekly = GoalType.monthly))]
  rw [getDay_setHoursZero]
  unfold setDate
  rw [getDate_setHoursZero]
  unfold setHoursZero
  ring

lemma gsp_monthly_eq (t : JSDate) :
    getStartOfPeriod t GoalType.monthly = (dayNumber t - getDate t + 1) * msPerDay := by
  simp only [getStartOfPeriod]
  rw [if_pos trivial]
  unfold setDate
  rw [getDate_setHoursZero]
  unfold setHoursZero
  ring

lemma monthly_start_civil (t : JSDate) (ht : 0 ≤ t) :
    civilFromDays (dayNumber (getStartOfPeriod t GoalType.monthly))
      = ((civilFromDays (dayNumber t)).1, (civilFromDays (dayNumber t)).2.1, 1) := by
  have hd : 0 ≤ dayNumber t := Int.ediv_nonneg ht (le_of_lt msPerDay_pos)
  have hv := civilFromDays_valid (dayNumber t) hd
  rw [gsp_monthly_eq, dayNumber_mul]
  have heq : dayNumber t - getDate t + 1
      = daysBeforeYear (civilFromDays (dayNumber t)).1
        + monthsBefore (civilFromDays (dayNumber t)).1 (civilFromDays (dayNumber t)).2.1
        + (1 : ℤ) - 1 := by
    have h5 := hv.2.2.2.2
    unfold getDate
    omega
  rw [heq]
  exact civilFromDays_inv _ _ 1 hv.1 hv.2.1 (le_refl 1) (monthLengthsN_pos _ _ hv.2.1)

/-- Claim C3: `getStartOfPeriod` — for `weekly`, the result is a Monday at
local midnight, obtained by the `day - weekday + (weekday == 0 ? -6 : 1)`
shift (Sunday handled as day 7 of the previous Monday-start week), and lies
at most six days before `now`, i.e. it is the Monday of `now`'s ISO week;
for `monthly`, the result is the first calendar day of `now`'s month at
local midnight. -/
theorem start_of_period_correct (t : JSDate) (ht : 0 ≤ t) :
    (getDay (getStartOfPeriod t .weekly) = 1
      ∧ timeOfDay (getStartOfPeriod t .weekly) = 0
      ∧ dayNumber (getStartOfPeriod t .weekly)
          = dayNumber t - getDay t + (if getDay t = 0 then -6 else 1)
      ∧ dayNumber (getStartOfPeriod t .weekly) ≤ dayNumber t
      ∧ dayNumber t - dayNumber (getStartOfPeriod t .weekly) ≤ 6)
    ∧ (getFullYear (getStartOfPeriod t .monthly) = getFullYear t
      ∧ getMonth (getStartOfPeriod t .monthly) = getMonth t
      ∧ getDate (getStartOfPeriod t .monthly) = 1
      ∧ timeOfDay (getStartOfPeriod t .monthly) = 0) := by
  constructor
  · have hb := getDay_bounds t
    refine ⟨?_, ?_, ?_, ?_, ?_⟩
    · rw [gsp_weekly_eq]
      unfold getDay at hb ⊢
      rw [dayNumber_mul]
      split_ifs with h
      · omega
      · omega
    · rw [gsp_weekly_eq, timeOfDay_mul]
    · rw [gsp_weekly_eq, dayNumber_mul]
    · rw [gsp_weekly_eq, dayNumber_mul]
      split_ifs <;> omega
    · rw [gsp_weekly_eq, dayNumber_mul]
      split_ifs <;> omega
  · have hc := monthly_start_civil t ht
    refine ⟨?_, ?_, ?_, ?_⟩
    · unfold getFullYear
      rw [hc]
    · unfold getMonth
      rw [hc]
    · unfold getDate
      rw [hc]
      norm_num
    · rw [gsp_monthly_eq, timeOfDay_mul]

/-- Witness for `start_of_period_correct` at `t = 0`
(1970-01-01T00:00 local, a Thursday). -/
theorem start_of_period_witness :
    (getDay (getStartOfPeriod 0 .weekly) = 1
      ∧ timeOfDay (getStartOfPeriod 0 .weekly) = 0
      ∧ dayNumber (getStartOfPeriod 0 .weekly)
          = dayNumber 0 - getDay 0 + (if getDay 0 = 0 then -6 else 1)
      ∧ dayNumber (getStartOfPeriod 0 .weekly) ≤ dayNumber 0
      ∧ dayNumber 0 - dayNumber (getStartOfPeriod 0 .weekly) ≤ 6)
    ∧ (getFullYear (getStartOfPeriod 0 .monthly) = getFullYear 0
      ∧ getMonth (getStartOfPeriod 0 .monthly) = getMonth 0
      ∧ getDate (getStartOfPeriod 0 .monthly) = 1
      ∧ timeOfDay (getStartOfPeriod 0 .monthly) = 0) :=
  start_of_period_correct 0 le_rfl

lemma monthsBefore_succ (y : ℤ) (m : ℕ) (hm : m < 12) :
    monthsBefore y (m + 1) = monthsBefore y m + ((monthLengthsN y).getD m 0 : ℤ) := by
  unfold monthsBefore
  rw [sum_take_getD _ _ (by rw [monthLengthsN_length]; exact hm)]
  push_cast
  ring

lemma getDate_mkDate_lastday (t : JSDate) (ht : 0 ≤ t) :
    getDate (mkDate (getFullYear t) (getMonth t + 1) 0)
      = ((monthLengthsN (getFullYear t)).getD (civilFromDays (dayNumber t)).2.1 0 : ℤ) := by
  have hd : 0 ≤ dayNumber t := Int.ediv_nonneg ht (le_of_lt msPerDay_pos)
  have hv := civilFromDays_valid (dayNumber t) hd
  have hL := monthLengthsN_pos (civilFromDays (dayNumber t)).1 _ hv.2.1
  by_cases hm11 : (civilFromDays (dayNumber t)).2.1 = 11
  · unfold mkDate getFullYear getMonth
    rw [hm11]
    rw [show ((11 : ℕ) : ℤ) + 1 = 12 by norm_num]
    rw [show (12 : ℤ) / 12 = 1 by norm_num, show (12 : ℤ) % 12 = 0 by norm_num]
    rw [show ((0 : ℤ)).toNat = 0 from rfl]
    rw [show monthsBefore ((civilFromDays (dayNumber t)).1 + 1) 0 = 0 from rfl]
    have hstep := daysBeforeYear_succ (civilFromDays (dayNumber t)).1
    have hsum : (daysInYearN (civilFromDays (dayNumber t)).1 : ℤ)
        = monthsBefore (civilFromDays (dayNumber t)).1 11
          + ((monthLengthsN (civilFromDays (dayNumber t)).1).getD 11 0 : ℤ) := by
      rw [← monthsBefore_succ _ 11 (by norm_num)]
      unfold monthsBefore
      rw [← monthLengthsN_sum]
      congr 1
    have harg : daysBeforeYear ((civilFromDays (dayNumber t)).1 + 1)
          + (0 : ℤ) + ((0 : ℤ) - 1)
        = daysBeforeYear (civilFromDays (dayNumber t)).1
          + monthsBefore (civilFromDays (dayNumber t)).1 11
          + (((monthLengthsN (civilFromDays (dayNumber t)).1).getD 11 0 : ℕ) : ℤ) - 1 := by
      omega
    rw [harg]
    unfold getDate
    rw [dayNumber_mul]
    rw [civilFromDays_inv _ 11 _ hv.1 (by norm_num) (by rw [← hm11]; exact hL)
      (le_refl _)]
  · have hm10 : (civilFromDays (dayNumber t)).2.1 + 1 < 12 := by
      have := hv.2.1
      omega
    unfold mkDate getFullYear getMonth
    rw [show ((civilFromDays (dayNumber t)).2.1 : ℤ) + 1
        = (((civilFromDays (dayNumber t)).2.1 + 1 : ℕ) : ℤ) by push_cast; ring]
    rw [Int.ediv_eq_zero_of_lt (by positivity) (by exact_mod_cast hm10)]
    rw [Int.emod_eq_of_lt (by positivity) (by exact_mod_cast hm10)]
    rw [show ((((civilFromDays (dayNumber t)).2.1 + 1 : ℕ) : ℤ)).toNat
        = (civilFromDays (dayNumber t)).2.1 + 1 by omega]
    rw [add_zero]
    rw [monthsBefore_succ _ _ hv.2.1]
    have harg : daysBeforeYear (civilFromDays (dayNumber t)).1
          + (monthsBefore (civilFromDays (dayNumber t)).1 (civilFromDays (dayNumber t)).2.1
            + (((monthLengthsN (civilFromDays (dayNumber t)).1).getD
                (civilFromDays (dayNumber t)).2.1 0 : ℕ) : ℤ)) + ((0 : ℤ) - 1)
        = daysBeforeYear (civilFromDays (dayNumber t)).1
          + monthsBefore (civilFromDays (dayNumber t)).1 (civilFromDays (dayNumber t)).2.1
          + (((monthLengthsN (civilFromDays (dayNumber t)).1).getD
              (civilFromDays (dayNumber t)).2.1 0 : ℕ) : ℤ) - 1 := by
      ring
    rw [harg]
    unfold getDate
    rw [dayNumber_mul]
    rw [civilFromDays_inv _ _ _ hv.1 hv.2.1 hL (le_refl _)]

/-- Claim C4: `daysLeft` — for `weekly` it equals `7 - isoWeekday + 1`
(Sunday counted as iso-weekday 7) and lies in `[1, 7]`; for `monthly` it
equals `lastDayOfMonth - dayOfMonth + 1` and is at least 1.  In particular
it is never zero, so the division `cutsNeededTotal / daysLeft` cannot
divide by zero. -/
theorem days_left_correct (t : JSDate) (ht : 0 ≤ t) :
    (daysLeft t .weekly = 7 - (if getDay t = 0 then 7 else getDay t) + 1
      ∧ 1 ≤ daysLeft t .weekly ∧ daysLeft t .weekly ≤ 7)
    ∧ (daysLeft t .monthly
        = ((monthLengthsN (getFullYear t)).getD (civilFromDays (dayNumber t)).2.1 0 : ℤ)
          - getDate t + 1
      ∧ 1 ≤ daysLeft t .monthly) := by
  have hd : 0 ≤ dayNumber t := Int.ediv_nonneg ht (le_of_lt msPerDay_pos)
  have hv := civilFromDays_valid (dayNumber t) hd
  constructor
  · have hb := getDay_bounds t
    refine ⟨?_, ?_, ?_⟩
    · simp only [daysLeft]
      rw [if_pos trivial]
    · simp only [daysLeft]
      rw [if_pos trivial]
      split_ifs <;> omega
    · simp only [daysLeft]
      rw [if_pos trivial]
      split_ifs <;> omega
  · have hlast := getDate_mkDate_lastday t ht
    constructor
    · simp only [daysLeft]
      rw [if_neg (by decide : ¬(GoalType.monthly = GoalType.weekly)), hlast]
    · simp only [daysLeft]
      rw [if_neg (by decide : ¬(GoalType.monthly = GoalType.weekly)), hlast]
      have h4 := hv.2.2.2.1
      unfold getDate getFullYear
      omega

/-- Witness for `days_left_correct` at `t = 0` (Thursday 1970-01-01: four
week days remaining, thirty-one month days remaining). -/
theorem days_left_witness :
    (daysLeft 0 .weekly = 7 - (if getDay 0 = 0 then 7 else getDay 0) + 1
      ∧ 1 ≤ daysLeft 0 .weekly ∧ daysLeft 0 .weekly ≤ 7)
    ∧ (daysLeft 0 .monthly
        = ((monthLengthsN (getFullYear 0)).getD (civilFromDays (dayNumber 0)).2.1 0 : ℤ)
          - getDate 0 + 1
      ∧ 1 ≤ daysLeft 0 .monthly) :=
  days_left_correct 0 le_rfl

/-! ### Claim C8: calendar-day grouping of the history -/

/-- Sum of the amounts logged on calendar day `k`. -/
def dayTotal (txs : List Transaction) (k : ℤ) : ℚ :=
  ((txs.filter fun t => dayNumber t.date == k).map Transaction.amount).sum

/-- Number of transactions logged on calendar day `k`. -/
def dayCount (txs : List Transaction) (k : ℤ) : ℕ :=
  (txs.filter fun t => dayNumber t.date == k).length

lemma dayTotal_append (txs : List Transaction) (t : Transaction) (k : ℤ) :
    dayTotal (txs ++ [t]) k
      = dayTotal txs k + (if dayNumber t.date = k then t.amount else 0) := by
  unfold dayTotal
  rw [List.filter_append]
  by_cases h : dayNumber t.date = k
  · simp [List.filter_cons, h]
  · simp [List.filter_cons, h]

lemma dayCount_append (txs : List Transaction) (t : Transaction) (k : ℤ) :
    dayCount (txs ++ [t]) k
      = dayCount txs k + (if dayNumber t.date = k then 1 else 0) := by
  unfold dayCount
  rw [List.filter_append]
  by_cases h : dayNumber t.date = k
  · simp [List.filter_cons, h]
  · simp [List.filter_cons, h]

lemma dayTotal_of_absent (txs : List Transaction) (k : ℤ)
    (h : ∀ t' ∈ txs, dayNumber t'.date ≠ k) : dayTotal txs k = 0 ∧ dayCount txs k = 0 := by
  have hf : txs.filter (fun t => dayNumber t.date == k) = [] := by
    rw [List.filter_eq_nil_iff]
    intro a ha
    simp only [beq_iff_eq]
    exact h a ha
  unfold dayTotal dayCount
  rw [hf]
  simp

/-- The invariant the grouping fold maintains: one entry per day seen so
far, in particular keys are distinct, each entry's `total`/`count` are the
day's sum/cardinality, and each entry's representative instant lies in its
day. -/
def GroupedInv (txs : List Transaction) (acc : List DaySummary) : Prop :=
  (acc.map DaySummary.dayKey).Nodup
    ∧ (∀ k : ℤ, (∃ s ∈ acc, s.dayKey = k) ↔ ∃ t ∈ txs, dayNumber t.date = k)
    ∧ ∀ s ∈ acc, s.total = dayTotal txs s.dayKey ∧ s.count = dayCount txs s.dayKey
        ∧ dayNumber s.dateObj = s.dayKey

lemma groupedInv_nil : GroupedInv [] [] := by
  refine ⟨List.nodup_nil, ?_, ?_⟩
  · intro k
    simp
  · intro s hs
    simp at hs

lemma groupedInv_step (txs : List Transaction) (acc : List DaySummary) (t : Transaction)
    (h : GroupedInv txs acc) : GroupedInv (txs ++ [t]) (insertTx acc t) := by
  obtain ⟨hnd, hmem, hent⟩ := h
  unfold insertTx
  dsimp only
  by_cases hany : acc.any fun s => s.dayKey == dayNumber t.date
  · rw [if_pos hany]
    rw [List.any_eq_true] at hany
    obtain ⟨w, hw, hwk⟩ := hany
    rw [beq_iff_eq] at hwk
    refine ⟨?_, ?_, ?_⟩
    · rw [List.map_map]
      have he : ∀ s ∈ acc,
          (DaySummary.dayKey ∘ fun s => if s.dayKey == dayNumber t.date
            then { s with total := s.total + t.amount, count := s.count + 1 } else s) s
          = DaySummary.dayKey s := by
        intro s _
        dsimp [Function.comp]
        split <;> rfl
      rw [List.map_congr_left he]
      exact hnd
    · intro k
      constructor
      · rintro ⟨s', hs', hk⟩
        rw [List.mem_map] at hs'
        obtain ⟨s, hs, rfl⟩ := hs'
        have hks : s.dayKey = k := by
          revert hk
          split <;> (intro hk; simpa using hk)
        obtain ⟨t', ht', htk⟩ := (hmem k).mp ⟨s, hs, hks⟩
        exact ⟨t', List.mem_append_left _ ht', htk⟩
      · rintro ⟨t', ht', htk⟩
        rw [List.mem_append] at ht'
        rcases ht' with ht' | ht'
        · obtain ⟨s, hs, hks⟩ := (hmem k).mpr ⟨t', ht', htk⟩
          refine ⟨(fun s => if s.dayKey == dayNumber t.date
            then { s with total := s.total + t.amount, count := s.count + 1 } else s) s,
            List.mem_map_of_mem _ hs, ?_⟩
          dsimp only
          split <;> simpa using hks
        · rw [List.mem_singleton] at ht'
          rw [ht'] at htk
          refine ⟨(fun s => if s.dayKey == dayNumber t.date
            then { s with total := s.total + t.amount, count := s.count + 1 } else s) w,
            List.mem_map_of_mem _ hw, ?_⟩
          dsimp only
          rw [if_pos (by rw [beq_iff_eq]; exact hwk)]
          simpa using hwk.trans htk
    · intro s' hs'
      rw [List.mem_map] at hs'
      obtain ⟨s, hs, rfl⟩ := hs'
      obtain ⟨hst, hsc, hso⟩ := hent s hs
      by_cases hks : s.dayKey = dayNumber t.date
      · rw [if_pos (by rw [beq_iff_eq]; exact hks)]
        refine ⟨?_, ?_, ?_⟩
        · dsimp
          rw [dayTotal_append, if_pos hks.symm, hst]
        · dsimp
          rw [dayCount_append, if_pos hks.symm, hsc]
        · exact hso
      · rw [if_neg (by rw [beq_iff_eq]; exact hks)]
        refine ⟨?_, ?_, hso⟩
        · rw [dayTotal_append, if_neg (fun hh => hks hh.symm), hst, add_zero]
        · rw [dayCount_append, if_neg (fun hh => hks hh.symm), hsc, add_zero]
  · rw [if_neg hany]
    have hforall : ∀ s ∈ acc, s.dayKey ≠ dayNumber t.date := by
      intro s hs hk
      exact hany (List.any_eq_true.mpr ⟨s, hs, by rw [beq_iff_eq]; exact hk⟩)
    have hnotx : ∀ t' ∈ txs, dayNumber t'.date ≠ dayNumber t.date := by
      intro t' ht' htk
      obtain ⟨s, hs, hks⟩ := (hmem (dayNumber t.date)).mpr ⟨t', ht', htk⟩
      exact hforall s hs hks
    have hid : ∀ s ∈ acc,
        (fun s => if s.dayKey == dayNumber t.date
          then { s with total := s.total + t.amount, count := s.count + 1 } else s) s = s := by
      intro s hs
      dsimp only
      rw [if_neg (by rw [beq_iff_eq]; exact hforall s hs)]
    rw [List.map_append, List.map_congr_left hid, List.map_id']
    have hnew : ((fun s => if s.dayKey == dayNumber t.date
          then { s with total := s.total + t.amount, count := s.count + 1 } else s)
        ({ dayKey := dayNumber t.date, dateObj := t.date, total := 0, count := 0 } : DaySummary))
        = { dayKey := dayNumber t.date, dateObj := t.date, total := 0 + t.amount,
            count := 0 + 1 } := by
      dsimp only
      rw [if_pos (by rw [beq_iff_eq])]
    rw [List.map_singleton]
    simp only [hnew]
    refine ⟨?_, ?_, ?_⟩
    · rw [List.map_append, List.map_singleton]
      rw [(List.perm_append_singleton _ _).nodup_iff, List.nodup_cons]
      refine ⟨?_, hnd⟩
      intro hin
      rw [List.mem_map] at hin
      obtain ⟨s, hs, hks⟩ := hin
      exact hforall s hs hks
    · intro k
      constructor
      · rintro ⟨s', hs', hk⟩
        rw [List.mem_append, List.mem_singleton] at hs'
        rcases hs' with hs' | hs'
        · obtain ⟨t', ht', htk⟩ := (hmem k).mp ⟨s', hs', hk⟩
          exact ⟨t', List.mem_append_left _ ht', htk⟩
        · subst hs'
          exact ⟨t, List.mem_append_right _ (List.mem_singleton_self t), hk⟩
      · rintro ⟨t', ht', htk⟩
        rw [List.mem_append, List.mem_singleton] at ht'
        rcases ht' with ht' | ht'
        · obtain ⟨s, hs, hks⟩ := (hmem k).mpr ⟨t', ht', htk⟩
          exact ⟨s, List.mem_append_left _ hs, hks⟩
        · subst ht'
          refine ⟨_, List.mem_append_right _ (List.mem_singleton_self _), htk⟩
    · intro s' hs'
      rw [List.mem_append, List.mem_singleton] at hs'
      rcases hs' with hs' | hs'
      · obtain ⟨hst, hsc, hso⟩ := hent s' hs'
        refine ⟨?_, ?_, hso⟩
        · rw [dayTotal_append, if_neg (fun hh => hforall s' hs' hh.symm), hst, add_zero]
        · rw [dayCount_append, if_neg (fun hh => hforall s' hs' hh.symm), hsc, add_zero]
      · subst hs'
        refine ⟨?_, ?_, rfl⟩
        · dsimp
          rw [dayTotal_append, if_pos rfl, (dayTotal_of_absent txs _ hnotx).1, zero_add]
        · dsimp
          rw [dayCount_append, if_pos rfl, (dayTotal_of_absent txs _ hnotx).2, zero_add]

lemma grouped_inv (txs : List Transaction) : GroupedInv txs (grouped txs) := by
  induction txs using List.reverseRecOn with
  | nil => exact groupedInv_nil
  | append_singleton txs t ih =>
      have : grouped (txs ++ [t]) = insertTx (grouped txs) t := by
        unfold grouped
        rw [List.foldl_append]
        rfl
      rw [this]
      exact groupedInv_step txs (grouped txs) t ih

lemma dayNumber_mono {a b : ℤ} (h : a ≤ b) : dayNumber a ≤ dayNumber b := by
  unfold dayNumber
  exact Int.ediv_le_ediv msPerDay_pos h

/-- Claim C8: `historyList` has exactly one entry per distinct local
calendar day occurring in the log (keys are distinct, and a day appears
among the entries iff some transaction falls on it), each entry's `total`
and `count` are the day's amount-sum and transaction count, and the entries
are sorted most-recent-day-first. -/
theorem history_grouping_correct (txs : List Transaction) :
    ((historyList txs).map DaySummary.dayKey).Nodup
      ∧ (∀ k : ℤ, (∃ s ∈ historyList txs, s.dayKey = k) ↔ ∃ t ∈ txs, dayNumber t.date = k)
      ∧ (∀ s ∈ historyList txs,
          s.total = dayTotal txs s.dayKey ∧ s.count = dayCount txs s.dayKey)
      ∧ (historyList txs).Pairwise (fun a b => b.dayKey < a.dayKey) := by
  obtain ⟨hnd, hmem, hent⟩ := grouped_inv txs
  have hperm : (historyList txs).Perm (grouped txs) :=
    List.perm_insertionSort byDateDesc (grouped txs)
  have hnd' : ((historyList txs).map DaySummary.dayKey).Nodup :=
    ((hperm.map DaySummary.dayKey).nodup_iff).mpr hnd
  refine ⟨hnd', ?_, ?_, ?_⟩
  · intro k
    rw [← hmem k]
    constructor
    · rintro ⟨s, hs, hk⟩
      exact ⟨s, hperm.mem_iff.mp hs, hk⟩
    · rintro ⟨s, hs, hk⟩
      exact ⟨s, hperm.mem_iff.mpr hs, hk⟩
  · intro s hs
    have h := hent s (hperm.mem_iff.mp hs)
    exact ⟨h.1, h.2.1⟩
  · have hsorted : (historyList txs).Pairwise byDateDesc :=
      List.sorted_insertionSort byDateDesc (grouped txs)
    have hne : (historyList txs).Pairwise fun a b => a.dayKey ≠ b.dayKey :=
      List.pairwise_map.mp hnd'
    refine (hsorted.and hne).imp_of_mem ?_
    intro a b ha hb hab
    obtain ⟨hle, hnee⟩ := hab
    have hda : dayNumber a.dateObj = a.dayKey := (hent a (hperm.mem_iff.mp ha)).2.2
    have hdb : dayNumber b.dateObj = b.dayKey := (hent b (hperm.mem_iff.mp hb)).2.2
    have hkle : b.dayKey ≤ a.dayKey := by
      rw [← hda, ← hdb]
      exact dayNumber_mono hle
    exact lt_of_le_of_ne hkle fun he => hnee he.symm
